import Mathlib

/-
Shallow embedding of the JTL parser (src/lib.rs).

Modelling conventions:
* Rust `&str` values are modelled as `List Char` (`Str`).  Rust byte indices
  returned by `str::find` always fall on the boundary of the character that
  was searched for, so slicing at such an index is modelled by the
  corresponding character-index `take`/`drop`, which splits the string at the
  same place.  The one genuinely byte-based quantity, `decl.len()`, is
  modelled exactly by `byteLen` (the UTF-8 byte count).
* `HashMap<String,String>` and `serde_json::Map<String,Value>` are modelled
  as association lists with last-write-wins `insert`; only lookup (`find?`)
  and insertion are used by the program, and the model is lookup-faithful.
* The attribute regex `(\w+)="([^"]+)"` of `parse_element` is modelled by a
  direct leftmost scan (`attrScan`).  `\w` is modelled as ASCII alphanumeric
  or underscore (`isWordChar`); likewise `trim` uses the ASCII whitespace
  characters.  All concrete documents considered below are ASCII except
  where the byte length of a character is itself the point.
* The `Box<dyn Error>` error strings of the source are modelled by the
  enumeration `JtlError`, one constructor per distinct error message.  The
  unreachable "missing content separator" branch of `parse_element` (the
  separator was already checked) is mapped to `missingSeparator`.
* `Regex::new` cannot fail on the fixed, valid pattern, so no error case is
  modelled for it, and `serde_json` serialization is outside the model.
-/

namespace JTL

abbrev Str := List Char

/-- Error taxonomy of the parser, one constructor per error message of
src/lib.rs. -/
inductive JtlError where
  | missingDoctype
  | missingPrefix
  | missingSeparator
  | elementTooShort
  | noAttributesFound
  | malformedContent
deriving DecidableEq

/-- Association-list model of the string maps used by the source
(`HashMap<String,String>` and `serde_json::Map`). -/
abbrev AssocMap := List (Str × Str)

/-- Lookup of a key, first matching entry. -/
def AssocMap.find? : AssocMap → Str → Option Str
  | [], _ => none
  | p :: ps, k => if p.1 = k then some p.2 else AssocMap.find? ps k

/-- Last-write-wins insertion: replaces the first entry for the key, or
appends when the key is absent.  This is lookup-equivalent to the map
insertions of the source. -/
def AssocMap.insert : AssocMap → Str → Str → AssocMap
  | [], k, v => [(k, v)]
  | p :: ps, k, v => if p.1 = k then (k, v) :: ps else p :: AssocMap.insert ps k v

/-- Fixed textual tokens of the format. -/
def doctypeTok : Str := "DOCTYPE=JTL".data

def envMarker : Str := ">>>ENV;".data

def beginMarker : Str := ">>>BEGIN;".data

def endMarker : Str := ">>>END;".data

def commentOpenTok : Str := "/*".data

def commentCloseTok : Str := "*/".data

def lineCommentTok : Str := ">//>".data

def envDeclTok : Str := ">>>".data

def gtTok : Str := ">".data

def envRefTok : Str := "$env:".data

def keyTok : Str := "KEY".data

def contentTok : Str := "Content".data

def contentsTok : Str := "Contents".data

/-- Whitespace trimming, modelling `str::trim` (ASCII whitespace). -/
def trim (s : Str) : Str :=
  ((s.dropWhile Char.isWhitespace).reverse.dropWhile Char.isWhitespace).reverse

/-- Splitting on a separator character, modelling `str::split(c)`: the list
of (possibly empty) segments between occurrences of `c`. -/
def splitOnChar (c : Char) : Str → List Str
  | [] => [[]]
  | x :: xs =>
    match splitOnChar c xs with
    | [] => [[]]
    | r :: rs => if x == c then [] :: r :: rs else (x :: r) :: rs

/-- Index of the first occurrence of a character, modelling `str::find(c)`. -/
def findCharIdx (c : Char) : Str → Option Nat
  | [] => none
  | a :: as => if a == c then some 0 else (findCharIdx c as).map (fun i => i + 1)

/-- Membership of a character, modelling `str::contains(c)`. -/
def containsChar (c : Char) : Str → Bool
  | [] => false
  | a :: as => a == c || containsChar c as

/-- Substring containment, modelling `str::contains(&str)`. -/
def strContainsSub (pat : Str) : Str → Bool
  | [] => pat.isEmpty
  | c :: cs => pat.isPrefixOf (c :: cs) || strContainsSub pat cs

/-- Strips one trailing carriage return, as `str::lines` does for a
`\r\n`-terminated line. -/
def stripCR (l : Str) : Str := if l.getLast? = some '\r' then l.dropLast else l

/-- Applies `f` to every element except the last one. -/
def mapButLast (f : Str → Str) : List Str → List Str
  | [] => []
  | [l] => [l]
  | l :: ls => f l :: mapButLast f ls

/-- Modelling `str::lines()`: split on `\n`, a final line terminator yields
no trailing empty line, and a `\r` immediately before a `\n` is stripped. -/
def rustLines (s : Str) : List Str :=
  if s.isEmpty then []
  else if s.getLast? = some '\n' then ((splitOnChar '\n' s).dropLast).map stripCR
  else mapButLast stripCR (splitOnChar '\n' s)

/-- UTF-8 size in bytes of one scalar value. -/
def charUtf8Bytes (c : Char) : Nat :=
  if c.toNat < 128 then 1
  else if c.toNat < 2048 then 2
  else if c.toNat < 65536 then 3
  else 4

/-- UTF-8 length in bytes, modelling `str::len()`. -/
def byteLen (s : Str) : Nat := (s.map charUtf8Bytes).sum

/-- The character class `\w` of the attribute regex (ASCII reading). -/
def isWordChar (c : Char) : Bool := c.isAlphanum || c == '_'

/-- One attempt to match `(\w+)="([^"]+)"` at the head of `s`; on success
returns the two capture groups and the remainder after the match.  The
greedy `\w+` must be maximal (no shorter run can be followed by `=`, which
is not a word character), and the greedy `[^"]+` runs up to the next
quote, which must exist and close the match. -/
def matchAttrAt (s : Str) : Option (Str × Str × Str) :=
  let name := s.takeWhile isWordChar
  let t := s.dropWhile isWordChar
  if name = [] then none
  else
    match t with
    | '=' :: '"' :: u =>
      let v := u.takeWhile (fun c => !(c == '"'))
      let w := u.dropWhile (fun c => !(c == '"'))
      if v = [] then none
      else
        match w with
        | '"' :: r => some (name, v, r)
        | _ => none
    | _ => none

/-- Leftmost, non-overlapping scan for attribute matches, modelling
`captures_iter` of the attribute regex.  The fuel argument only forces
termination; every step consumes at least one character, so fuel equal to
the length of the string suffices. -/
def attrScanF : Nat → Str → List (Str × Str)
  | 0, _ => []
  | _ + 1, [] => []
  | fuel + 1, a :: s =>
    match matchAttrAt (a :: s) with
    | some (n, v, r) => (n, v) :: attrScanF fuel r
    | none => attrScanF fuel s

/-- All `name="value"` attribute pairs of `s`, in match order. -/
def attrScan (s : Str) : List (Str × Str) := attrScanF s.length s

/-- Repeatedly strips the `$env:` token from the front, modelling
`str::trim_start_matches("$env:")` (fuel as in `attrScanF`; every
iteration removes five characters). -/
def stripEnvF : Nat → Str → Str
  | 0, s => s
  | fuel + 1, s => if envRefTok.isPrefixOf s then stripEnvF fuel (s.drop 5) else s

/-- `content.trim_start_matches("$env:")` of the source. -/
def stripEnvRepeated (s : Str) : Str := stripEnvF s.length s

/-- The environment-substitution step of `parse_element` (src/lib.rs
lines 117-123): when the content carries the `$env:` token, look the
stripped name up, substituting the bound value and falling back to the
literal content when the name is unbound. -/
def resolveContent (env : AssocMap) (content : Str) : Str :=
  if envRefTok.isPrefixOf content then
    match AssocMap.find? env (stripEnvRepeated content) with
    | some v => v
    | none => content
  else content

/-- `line.strip_prefix('>')` of the source. -/
def stripPrefixGt (s : Str) : Option Str :=
  match s with
  | '>' :: rest => some rest
  | _ => none

/-- The final record construction of `parse_element` (src/lib.rs lines
124-126): the reserved keys are inserted after all attribute keys. -/
def mkRecord (m0 : AssocMap) (id content : Str) : AssocMap :=
  AssocMap.insert (AssocMap.insert (AssocMap.insert m0 keyTok id) contentTok content)
    contentsTok content

/-- The attribute map built from the capture list (src/lib.rs lines
92-97). -/
def attrFold (captures : List (Str × Str)) : AssocMap :=
  captures.foldl (fun m p => AssocMap.insert m p.1 p.2) []

/-- The `content_part` local of `parse_element` (src/lib.rs lines
99-108): everything after the first `>` of the remainder, with one
trailing `;` removed when present. -/
def contentPartOf (rest : Str) (contentStart : Nat) : Str :=
  let cp := rest.drop (contentStart + 1)
  if cp.getLast? = some ';' then cp.dropLast else cp

/-- `parse_element` of src/lib.rs (lines 77-129).  The source's local
`let` bindings (`captures`, `content_part`, `parts`) appear here as the
named helpers `attrScan`, `attrFold` and `contentPartOf`. -/
def parse_element (line : Str) (env : AssocMap) : Except JtlError AssocMap :=
  match stripPrefixGt line with
  | none => .error .missingPrefix
  | some rest =>
    if containsChar '>' rest = false then .error .missingSeparator
    else if attrScan rest = [] then .error .noAttributesFound
    else
      match findCharIdx '>' rest with
      | none => .error .missingSeparator
      | some contentStart =>
        match findCharIdx '>' (contentPartOf rest contentStart) with
        | none => .error .malformedContent
        | some i =>
          if (contentPartOf rest contentStart).take i = []
              ∨ (contentPartOf rest contentStart).drop (i + 1) = [] then
            .error .malformedContent
          else
            .ok (mkRecord (attrFold (attrScan rest)) ((contentPartOf rest contentStart).take i)
              (resolveContent env ((contentPartOf rest contentStart).drop (i + 1))))

/-- Environment-declaration processing shared by `parse` (lines 51-57) and
`parse_env` (lines 163-170): strip the three-character token, and an `=`
splits the rest into a trimmed name and value. -/
def envApplyDecl (env : AssocMap) (d : Str) : AssocMap :=
  match findCharIdx '=' (d.drop 3) with
  | some i => AssocMap.insert env (trim ((d.drop 3).take i)) (trim ((d.drop 3).drop (i + 1)))
  | none => env

/-- One declaration of the inner loop of `parse` (src/lib.rs lines 45-65):
returns the updated environment and an optional new element record.  The
source's `let decl = decl.trim()` shadow appears as `trim d0`. -/
def stepDecl (inEnv inBody : Bool) (env : AssocMap) (d0 : Str) :
    Except JtlError (AssocMap × Option AssocMap) :=
  if (trim d0).isEmpty || lineCommentTok.isPrefixOf (trim d0) then .ok (env, none)
  else if inEnv && envDeclTok.isPrefixOf (trim d0) then .ok (envApplyDecl env (trim d0), none)
  else if inBody && gtTok.isPrefixOf (trim d0) then
    if byteLen (trim d0) < 5 then .error .elementTooShort
    else
      match parse_element (trim d0) env with
      | .error e => .error e
      | .ok m => .ok (env, some m)
  else .ok (env, none)

/-- The declaration loop of `parse` over the `;`-split pieces of one line. -/
def parseDecls (inEnv inBody : Bool) :
    AssocMap → List AssocMap → List Str → Except JtlError (AssocMap × List AssocMap)
  | env, acc, [] => .ok (env, acc)
  | env, acc, d :: ds =>
    match stepDecl inEnv inBody env d with
    | .error e => .error e
    | .ok (env2, none) => parseDecls inEnv inBody env2 acc ds
    | .ok (env2, some m) => parseDecls inEnv inBody env2 (acc ++ [m]) ds

/-- The line loop of `parse` (src/lib.rs lines 19-66).  The source's
`let line = line.trim()` shadow appears as `trim l`. -/
def parseLines : List Str → Bool → Bool → AssocMap → List AssocMap →
    Except JtlError (List AssocMap)
  | [], _, _, _, acc => .ok acc
  | l :: ls, inEnv, inBody, env, acc =>
    if (trim l).isEmpty || commentOpenTok.isPrefixOf (trim l)
        || commentCloseTok.isPrefixOf (trim l) || lineCommentTok.isPrefixOf (trim l) then
      parseLines ls inEnv inBody env acc
    else if trim l = envMarker then parseLines ls true inBody env acc
    else if trim l = beginMarker then parseLines ls false true env acc
    else if trim l = endMarker then parseLines ls inEnv false env acc
    else
      match parseDecls inEnv inBody env acc (splitOnChar ';' (trim l)) with
      | .error e => .error e
      | .ok (env2, acc2) => parseLines ls inEnv inBody env2 acc2

/-- `parse` of src/lib.rs (lines 7-69): doctype gate, then the line loop
starting in neither section, with no records collected. -/
def parse (text : Str) : Except JtlError (List AssocMap) :=
  match rustLines text with
  | [] => .error .missingDoctype
  | l0 :: ls =>
    if strContainsSub doctypeTok l0 = true then parseLines (l0 :: ls) false false [] []
    else .error .missingDoctype

/-- The per-line environment collection of `parse_env` (src/lib.rs lines
160-171): split the line on `;`, and every trimmed piece carrying the
`>>>` token is treated as an environment declaration. -/
def envLineApply (env : AssocMap) (t : Str) : AssocMap :=
  (splitOnChar ';' t).foldl
    (fun e d0 =>
      if envDeclTok.isPrefixOf (trim d0) then envApplyDecl e (trim d0) else e)
    env

/-- The line loop of `parse_env` (src/lib.rs lines 141-173): stops at the
first BODY-begin marker line, and collects from a line only when the whole
trimmed line carries the `>>>` token. -/
def parseEnvLoop : List Str → Bool → AssocMap → AssocMap
  | [], _, env => env
  | l :: ls, inEnv, env =>
    if (trim l).isEmpty || commentOpenTok.isPrefixOf (trim l)
        || commentCloseTok.isPrefixOf (trim l) || lineCommentTok.isPrefixOf (trim l) then
      parseEnvLoop ls inEnv env
    else if trim l = envMarker then parseEnvLoop ls true env
    else if trim l = beginMarker then env
    else if inEnv && envDeclTok.isPrefixOf (trim l) then
      parseEnvLoop ls inEnv (envLineApply env (trim l))
    else parseEnvLoop ls inEnv env

/-- `parse_env` of src/lib.rs (lines 132-176). -/
def parse_env (text : Str) : Except JtlError AssocMap :=
  match rustLines text with
  | [] => .error .missingDoctype
  | l0 :: ls =>
    if strContainsSub doctypeTok l0 = true then .ok (parseEnvLoop (l0 :: ls) false [])
    else .error .missingDoctype

/-- The environment collection of one line inside `parse`, restricted to the
region before the first BODY-begin marker, where `in_body` is always false:
exactly the declaration loop of `parse` with its body branch unreachable. -/
def accumEnvLine (inEnv : Bool) (env : AssocMap) (t : Str) : AssocMap :=
  (splitOnChar ';' t).foldl
    (fun e d0 =>
      if (trim d0).isEmpty || lineCommentTok.isPrefixOf (trim d0) then e
      else if inEnv && envDeclTok.isPrefixOf (trim d0) then envApplyDecl e (trim d0)
      else e)
    env

/-- The environment map `parse` has accumulated in `current_env` at the
moment the first BODY-begin marker line is reached (or at end of input):
`parse`'s own loop, observed on the region where `in_body` is still false,
so that only marker handling and environment declarations can act. -/
def parseAccumLoop : List Str → Bool → AssocMap → AssocMap
  | [], _, env => env
  | l :: ls, inEnv, env =>
    if (trim l).isEmpty || commentOpenTok.isPrefixOf (trim l)
        || commentCloseTok.isPrefixOf (trim l) || lineCommentTok.isPrefixOf (trim l) then
      parseAccumLoop ls inEnv env
    else if trim l = envMarker then parseAccumLoop ls true env
    else if trim l = beginMarker then env
    else if trim l = endMarker then parseAccumLoop ls inEnv env
    else parseAccumLoop ls inEnv (accumEnvLine inEnv env (trim l))

/-- The Document Parser's accumulated environment at the first BODY-begin
marker (or at end of input), behind the same doctype gate as `parse`. -/
def parseEnvAt (text : Str) : Except JtlError AssocMap :=
  match rustLines text with
  | [] => .error .missingDoctype
  | l0 :: ls =>
    if strContainsSub doctypeTok l0 = true then .ok (parseAccumLoop (l0 :: ls) false [])
    else .error .missingDoctype

/-- A line that the two environment scans treat identically while the ENV
section is open: blank, one of the three comment forms, or a line whose
trimmed form carries the `>>>` token. -/
def lineOkForEnv (l : Str) : Bool :=
  (trim l).isEmpty || commentOpenTok.isPrefixOf (trim l)
    || commentCloseTok.isPrefixOf (trim l) || lineCommentTok.isPrefixOf (trim l)
    || envDeclTok.isPrefixOf (trim l)

/-- Whether a line is not the BODY-begin marker line. -/
def notBeginLine (l : Str) : Bool := !(trim l == beginMarker)

/-- The lines up to (excluding) the first BODY-begin marker line. -/
def upToBegin (ls : List Str) : List Str := ls.takeWhile notBeginLine

/-- Whether one `;`-split declaration piece is an environment declaration
binding the variable `k`: it carries the `>>>` token and the trimmed text
before its first `=` is `k`. -/
def declBindsKey (d : Str) (k : Str) : Bool :=
  envDeclTok.isPrefixOf d &&
    match findCharIdx '=' (d.drop 3) with
    | some i => trim ((d.drop 3).take i) == k
    | none => false

/-- Whether any declaration piece of a line binds the variable `k`. -/
def lineBindsKey (l : Str) (k : Str) : Bool :=
  (splitOnChar ';' (trim l)).any (fun d0 => declBindsKey (trim d0) k)

/-- The six-line sample document of the spec and of the source's tests. -/
def sampleJtl : Str :=
  "DOCTYPE=JTL\n>>>ENV;\n>>>foo=bar;\n>>>BEGIN;\n>element_id key=\"value\">element_id>$env:foo;\n>>>END;".data

/-- A document whose third line hides an environment declaration behind a
`;`-split: the declaration loop of `parse` still reaches it, while the
line-level filter of `parse_env` skips the whole line. -/
def crossSplitDoc : Str :=
  "DOCTYPE=JTL\n>>>ENV;\nx; >>>foo=bar;\n>>>BEGIN;\n>a k=\"v\">i>$env:foo;\n>>>END;".data

/-- A document with a second BODY-begin marker after the BODY-end marker,
followed by an element declaration. -/
def reopenDoc : Str :=
  "DOCTYPE=JTL\n>>>BEGIN;\n>>>END;\n>>>BEGIN;\n>a k=\"v\">i>c;".data

/-- A body declaration of three characters but five UTF-8 bytes. -/
def nonAsciiShortDoc : Str := "DOCTYPE=JTL\n>>>BEGIN;\n>éé;\n>>>END;".data

/-- The too-short document of the source's tests. -/
def tooShortDoc : Str := "DOCTYPE=JTL\n>>>BEGIN;\n>a;\n>>>END;".data

/-- A document rebinding `foo` three times in the ENV section. -/
def overrideDoc : Str :=
  "DOCTYPE=JTL\n>>>ENV;\n>>>foo=bar;\n>>>foo=baz;\n>>>foo=qux;\n>>>BEGIN;\n>>>END;".data

/-- A document binding `foo` twice, with nothing after the second binding
but the section markers. -/
def overrideTailDoc : Str :=
  "DOCTYPE=JTL\n>>>ENV;\n>>>foo=bar;\n>>>foo=baz;\n>>>BEGIN;\n>>>END;".data

/-- A document with an environment-style declaration inside the BODY
section. -/
def envStyleBodyDoc : Str := "DOCTYPE=JTL\n>>>BEGIN;\n>>>foo=bar;\n>>>END;".data

/-! Basic lemmas about the map model and the string utilities. -/

theorem find_insert_self (m : AssocMap) (k v : Str) :
    AssocMap.find? (AssocMap.insert m k v) k = some v := by
  induction m with
  | nil => simp [AssocMap.insert, AssocMap.find?]
  | cons p ps ih =>
    by_cases h : p.1 = k
    · simp [AssocMap.insert, AssocMap.find?, h]
    · simp [AssocMap.insert, AssocMap.find?, h, ih]

theorem find_insert_ne (m : AssocMap) (k v k' : Str) (hne : k' ≠ k) :
    AssocMap.find? (AssocMap.insert m k v) k' = AssocMap.find? m k' := by
  induction m with
  | nil => simp [AssocMap.insert, AssocMap.find?, Ne.symm hne]
  | cons p ps ih =>
    by_cases h : p.1 = k
    · simp [AssocMap.insert, AssocMap.find?, h, Ne.symm hne]
    · simp only [AssocMap.insert, if_neg h, AssocMap.find?]
      by_cases h2 : p.1 = k'
      · simp [h2]
      · simp [h2, ih]

theorem find_insert_isSome (m : AssocMap) (k k' v : Str)
    (h : (AssocMap.find? m k).isSome = true) :
    (AssocMap.find? (AssocMap.insert m k' v) k).isSome = true := by
  by_cases he : k = k'
  · subst he; simp [find_insert_self]
  · rw [find_insert_ne m k' v k he]; exact h

theorem find_foldl_insert_isSome (ps : List (Str × Str)) (m : AssocMap) (k : Str)
    (h : (AssocMap.find? m k).isSome = true) :
    (AssocMap.find? (ps.foldl (fun m p => AssocMap.insert m p.1 p.2) m) k).isSome = true := by
  induction ps generalizing m with
  | nil => exact h
  | cons p ps ih => exact ih _ (find_insert_isSome _ _ _ _ h)

theorem find_foldl_insert_mem (ps : List (Str × Str)) (m0 : AssocMap) (k v : Str)
    (h : (k, v) ∈ ps) :
    (AssocMap.find? (ps.foldl (fun m p => AssocMap.insert m p.1 p.2) m0) k).isSome = true := by
  induction ps generalizing m0 with
  | nil => cases h
  | cons p ps ih =>
    rcases List.mem_cons.mp h with h1 | h2
    · subst h1
      rw [List.foldl_cons]
      exact find_foldl_insert_isSome _ _ _ (by rw [find_insert_self]; rfl)
    · exact ih _ h2

theorem isPrefixOf_exists {p s : Str} (h : p.isPrefixOf s = true) :
    ∃ t, s = p ++ t := by
  induction p generalizing s with
  | nil => exact ⟨s, rfl⟩
  | cons a as ih =>
    cases s with
    | nil => simp [List.isPrefixOf] at h
    | cons b bs =>
      simp only [List.isPrefixOf, Bool.and_eq_true, beq_iff_eq] at h
      obtain ⟨t, ht⟩ := ih h.2
      exact ⟨t, by simp [h.1, ht]⟩

theorem containsChar_findIdx {c : Char} {s : Str} (h : containsChar c s = true) :
    ∃ i, findCharIdx c s = some i := by
  induction s with
  | nil => simp [containsChar] at h
  | cons a as ih =>
    simp only [containsChar, Bool.or_eq_true] at h
    by_cases he : a == c
    · exact ⟨0, by simp [findCharIdx, he]⟩
    · rcases h with h1 | h2
      · exact absurd h1 (by simp_all)
      · obtain ⟨i, hi⟩ := ih h2
        exact ⟨i + 1, by simp [findCharIdx, he, hi]⟩

theorem envDecl_not_lineComment {d : Str} (h : envDeclTok.isPrefixOf d = true) :
    lineCommentTok.isPrefixOf d = false := by
  obtain ⟨t, ht⟩ := isPrefixOf_exists h
  subst ht
  simp [lineCommentTok, List.isPrefixOf, envDeclTok]

theorem envDecl_not_empty {d : Str} (h : envDeclTok.isPrefixOf d = true) :
    d.isEmpty = false := by
  obtain ⟨t, ht⟩ := isPrefixOf_exists h
  subst ht
  simp [envDeclTok]

theorem gt_of_envDecl {d : Str} (h : envDeclTok.isPrefixOf d = true) :
    gtTok.isPrefixOf d = true := by
  obtain ⟨t, ht⟩ := isPrefixOf_exists h
  subst ht
  simp [gtTok, envDeclTok, List.isPrefixOf]

theorem mkRecord_find_key (m0 : AssocMap) (id c : Str) :
    AssocMap.find? (mkRecord m0 id c) keyTok = some id := by
  unfold mkRecord
  rw [find_insert_ne _ _ _ _ (by decide), find_insert_ne _ _ _ _ (by decide)]
  exact find_insert_self _ _ _

theorem mkRecord_find_content (m0 : AssocMap) (id c : Str) :
    AssocMap.find? (mkRecord m0 id c) contentTok = some c := by
  unfold mkRecord
  rw [find_insert_ne _ _ _ _ (by decide)]
  exact find_insert_self _ _ _

theorem mkRecord_find_contents (m0 : AssocMap) (id c : Str) :
    AssocMap.find? (mkRecord m0 id c) contentsTok = some c := find_insert_self _ _ _

theorem stripEnvF_no_tok (f : Nat) (s : Str) (hf : s.length ≤ f) :
    envRefTok.isPrefixOf (stripEnvF f s) = false := by
  induction f generalizing s with
  | zero =>
    have : s = [] := List.eq_nil_of_length_eq_zero (Nat.le_zero.mp hf)
    subst this
    decide
  | succ f ih =>
    rw [stripEnvF]
    by_cases h : envRefTok.isPrefixOf s = true
    · rw [if_pos h]
      refine ih _ ?_
      obtain ⟨t, ht⟩ := isPrefixOf_exists h
      subst ht
      simp only [List.length_append, List.length_drop]
      simp only [envRefTok] at hf ⊢
      simp only [List.length_append] at hf
      omega
    · rw [if_neg h]
      exact Bool.not_eq_true _ ▸ h

theorem foldl_fn_ext {α β : Type} (f g : α → β → α) (l : List β)
    (h : ∀ a b, f a b = g a b) (a : α) : l.foldl f a = l.foldl g a := by
  induction l generalizing a with
  | nil => rfl
  | cons b bs ih => simp only [List.foldl_cons, h, ih]

theorem foldl_id {α β : Type} (f : α → β → α) (h : ∀ a b, f a b = a) (l : List β) (a : α) :
    l.foldl f a = a := by
  induction l generalizing a with
  | nil => rfl
  | cons b bs ih => rw [List.foldl_cons, h, ih]

/-! The loop of `parse` can fail, but never with the doctype error: that
error is raised only by the gate on the first line. -/

theorem parse_element_ne_doctype (line : Str) (env : AssocMap) :
    parse_element line env ≠ .error .missingDoctype := by
  intro h
  unfold parse_element at h
  iterate 8 (all_goals try split at h)
  all_goals simp at h

theorem stepDecl_ne_doctype (inEnv inBody : Bool) (env : AssocMap) (d : Str) :
    stepDecl inEnv inBody env d ≠ .error .missingDoctype := by
  intro h
  unfold stepDecl at h
  split at h
  · simp at h
  · split at h
    · simp at h
    · split at h
      · split at h
        · simp at h
        · split at h
          next e heq =>
            injection h with h2
            subst h2
            exact parse_element_ne_doctype _ _ heq
          next m heq => simp at h
      · simp at h

theorem parseDecls_ne_doctype (inEnv inBody : Bool) (env : AssocMap) (acc : List AssocMap)
    (ds : List Str) : parseDecls inEnv inBody env acc ds ≠ .error .missingDoctype := by
  induction ds generalizing env acc with
  | nil => simp [parseDecls]
  | cons d ds ih =>
    intro h
    unfold parseDecls at h
    split at h
    next e heq =>
      injection h with h2
      subst h2
      exact stepDecl_ne_doctype _ _ _ _ heq
    next heq => exact ih _ _ h
    next m heq => exact ih _ _ h

theorem parseLines_ne_doctype (ls : List Str) (inEnv inBody : Bool) (env : AssocMap)
    (acc : List AssocMap) : parseLines ls inEnv inBody env acc ≠ .error .missingDoctype := by
  induction ls generalizing inEnv inBody env acc with
  | nil => simp [parseLines]
  | cons l ls ih =>
    intro h
    simp only [parseLines] at h
    split at h
    · exact ih _ _ _ _ h
    · split at h
      · exact ih _ _ _ _ h
      · split at h
        · exact ih _ _ _ _ h
        · split at h
          · exact ih _ _ _ _ h
          · split at h
            next e heq =>
              injection h with h2
              subst h2
              exact parseDecls_ne_doctype _ _ _ _ _ heq
            next env2 acc2 heq => exact ih _ _ _ _ h

/-! Relating the two environment scans: the line loop of `parse_env` and
the environment accumulation of `parse` before the BODY-begin marker. -/

theorem envLineApply_endMarker (env : AssocMap) : envLineApply env endMarker = env := rfl

theorem accumEnvLine_false (t : Str) (env : AssocMap) : accumEnvLine false env t = env := by
  unfold accumEnvLine
  refine foldl_id _ (fun e d0 => ?_) _ _
  simp only [Bool.false_and, Bool.false_eq_true, if_false]
  split <;> rfl

theorem accumEnvLine_true (t : Str) (env : AssocMap) :
    accumEnvLine true env t = envLineApply env t := by
  unfold accumEnvLine envLineApply
  refine foldl_fn_ext _ _ _ (fun e d0 => ?_) _
  by_cases hp : envDeclTok.isPrefixOf (trim d0) = true
  · simp only [envDecl_not_empty hp, envDecl_not_lineComment hp, Bool.or_self,
      Bool.false_eq_true, if_false, Bool.true_and, hp, if_true]
  · have hp2 : envDeclTok.isPrefixOf (trim d0) = false := by
      cases hq : envDeclTok.isPrefixOf (trim d0)
      · rfl
      · exact absurd hq hp
    simp only [Bool.true_and, hp2, Bool.false_eq_true, if_false]
    split <;> rfl

theorem envLoops_eq (ls : List Str) (inEnv : Bool) (env : AssocMap)
    (h : ∀ l ∈ upToBegin ls, lineOkForEnv l = true) :
    parseEnvLoop ls inEnv env = parseAccumLoop ls inEnv env := by
  induction ls generalizing inEnv env with
  | nil => rfl
  | cons l ls ih =>
    simp only [parseEnvLoop, parseAccumLoop]
    by_cases hb : trim l = beginMarker
    · rw [hb]
      rfl
    · have hmem : upToBegin (l :: ls) = l :: upToBegin ls := by
        unfold upToBegin
        rw [List.takeWhile_cons, if_pos (by simp [notBeginLine, hb])]
      rw [hmem] at h
      have hok := h l (List.mem_cons_self _ _)
      have htail : ∀ l' ∈ upToBegin ls, lineOkForEnv l' = true :=
        fun l' hl' => h l' (List.mem_cons_of_mem _ hl')
      by_cases hskip : ((trim l).isEmpty || commentOpenTok.isPrefixOf (trim l)
          || commentCloseTok.isPrefixOf (trim l) || lineCommentTok.isPrefixOf (trim l)) = true
      · rw [if_pos hskip, if_pos hskip]
        exact ih _ _ htail
      · rw [if_neg hskip, if_neg hskip]
        have hpre : envDeclTok.isPrefixOf (trim l) = true := by
          unfold lineOkForEnv at hok
          rcases Bool.or_eq_true _ _ |>.mp hok with h1 | h1
          · exact absurd h1 hskip
          · exact h1
        by_cases henv : trim l = envMarker
        · rw [if_pos henv, if_pos henv]
          exact ih _ _ htail
        · rw [if_neg henv, if_neg henv, if_neg hb, if_neg hb]
          by_cases hend : trim l = endMarker
          · rw [if_pos hend, hend]
            cases inEnv with
            | false =>
              rw [if_neg (by simp)]
              exact ih _ _ htail
            | true =>
              rw [if_pos (by decide), envLineApply_endMarker]
              exact ih _ _ htail
          · rw [if_neg hend]
            cases inEnv with
            | false =>
              rw [if_neg (by simp), accumEnvLine_false]
              exact ih _ _ htail
            | true =>
              rw [if_pos (by simp [hpre]), accumEnvLine_true]
              exact ih _ _ htail

/-! With the body flag off and no BODY-begin marker line ahead, the loop of
`parse` can only update the environment: it adds no record and cannot
fail. -/

theorem parseDecls_not_body (inEnv : Bool) (env : AssocMap) (acc : List AssocMap)
    (ds : List Str) : ∃ env2, parseDecls inEnv false env acc ds = .ok (env2, acc) := by
  induction ds generalizing env with
  | nil => exact ⟨env, rfl⟩
  | cons d ds ih =>
    have hstep : ∃ env1, stepDecl inEnv false env d = .ok (env1, none) := by
      unfold stepDecl
      split
      · exact ⟨env, rfl⟩
      · split
        · exact ⟨envApplyDecl env (trim d), rfl⟩
        · simp only [Bool.false_and, Bool.false_eq_true, if_false]
          exact ⟨env, rfl⟩
    obtain ⟨env1, hs⟩ := hstep
    unfold parseDecls
    rw [hs]
    exact ih env1

/-! Preservation of a variable that no later line rebinds: the basis of the
last-write-wins property of the environment scans. -/

theorem foldl_preserves_find {β : Type} (f : AssocMap → β → AssocMap) (l : List β)
    (k : Str) (h : ∀ e b, b ∈ l → AssocMap.find? (f e b) k = AssocMap.find? e k)
    (e : AssocMap) : AssocMap.find? (l.foldl f e) k = AssocMap.find? e k := by
  induction l generalizing e with
  | nil => rfl
  | cons b bs ih =>
    rw [List.foldl_cons, ih (fun e b' hb' => h e b' (List.mem_cons_of_mem _ hb')),
      h e b (List.mem_cons_self _ _)]

theorem envApplyDecl_preserves (e : AssocMap) (d k : Str)
    (hp : envDeclTok.isPrefixOf d = true) (h : declBindsKey d k = false) :
    AssocMap.find? (envApplyDecl e d) k = AssocMap.find? e k := by
  unfold envApplyDecl
  cases hf : findCharIdx '=' (d.drop 3) with
  | none => rfl
  | some i =>
    have hne : trim ((d.drop 3).take i) ≠ k := by
      intro he
      unfold declBindsKey at h
      rw [hp, hf] at h
      simp [he] at h
    exact find_insert_ne _ _ _ _ (Ne.symm hne)

theorem envLineApply_preserves (env : AssocMap) (l k : Str)
    (h : lineBindsKey l k = false) :
    AssocMap.find? (envLineApply env (trim l)) k = AssocMap.find? env k := by
  unfold envLineApply
  refine foldl_preserves_find _ _ _ (fun e d0 hd0 => ?_) env
  have hdk : declBindsKey (trim d0) k = false := by
    unfold lineBindsKey at h
    rw [List.any_eq_false] at h
    simpa using h d0 hd0
  by_cases hp : envDeclTok.isPrefixOf (trim d0) = true
  · rw [if_pos hp]
    exact envApplyDecl_preserves _ _ _ hp hdk
  · rw [if_neg hp]

theorem accumEnvLine_preserves (inEnv : Bool) (env : AssocMap) (l k : Str)
    (h : lineBindsKey l k = false) :
    AssocMap.find? (accumEnvLine inEnv env (trim l)) k = AssocMap.find? env k := by
  unfold accumEnvLine
  refine foldl_preserves_find _ _ _ (fun e d0 hd0 => ?_) env
  have hdk : declBindsKey (trim d0) k = false := by
    unfold lineBindsKey at h
    rw [List.any_eq_false] at h
    simpa using h d0 hd0
  split
  · rfl
  · split
    next hc =>
      have hp : envDeclTok.isPrefixOf (trim d0) = true := (Bool.and_eq_true _ _ |>.mp hc).2
      exact envApplyDecl_preserves _ _ _ hp hdk
    next => rfl

theorem parseEnvLoop_preserves (ls : List Str) (inEnv : Bool) (env : AssocMap) (k : Str)
    (h : ∀ l ∈ ls, lineBindsKey l k = false) :
    AssocMap.find? (parseEnvLoop ls inEnv env) k = AssocMap.find? env k := by
  induction ls generalizing inEnv env with
  | nil => rfl
  | cons l ls ih =>
    have htail : ∀ l' ∈ ls, lineBindsKey l' k = false :=
      fun l' hl' => h l' (List.mem_cons_of_mem _ hl')
    have hl : lineBindsKey l k = false := h l (List.mem_cons_self _ _)
    unfold parseEnvLoop
    split
    · exact ih _ _ htail
    · split
      · exact ih _ _ htail
      · split
        · rfl
        · split
          · rw [ih _ _ htail, envLineApply_preserves _ _ _ hl]
          · exact ih _ _ htail

theorem parseAccumLoop_preserves (ls : List Str) (inEnv : Bool) (env : AssocMap) (k : Str)
    (h : ∀ l ∈ ls, lineBindsKey l k = false) :
    AssocMap.find? (parseAccumLoop ls inEnv env) k = AssocMap.find? env k := by
  induction ls generalizing inEnv env with
  | nil => rfl
  | cons l ls ih =>
    have htail : ∀ l' ∈ ls, lineBindsKey l' k = false :=
      fun l' hl' => h l' (List.mem_cons_of_mem _ hl')
    have hl : lineBindsKey l k = false := h l (List.mem_cons_self _ _)
    unfold parseAccumLoop
    split
    · exact ih _ _ htail
    · split
      · exact ih _ _ htail
      · split
        · rfl
        · split
          · exact ih _ _ htail
          · rw [ih _ _ htail, accumEnvLine_preserves _ _ _ _ hl]

/-- One step of the `parse_env` line loop. -/
theorem parseEnvLoop_cons (l : Str) (ls : List Str) (inEnv : Bool) (env : AssocMap) :
    parseEnvLoop (l :: ls) inEnv env =
      (if (trim l).isEmpty || commentOpenTok.isPrefixOf (trim l)
          || commentCloseTok.isPrefixOf (trim l) || lineCommentTok.isPrefixOf (trim l) then
        parseEnvLoop ls inEnv env
      else if trim l = envMarker then parseEnvLoop ls true env
      else if trim l = beginMarker then env
      else if inEnv && envDeclTok.isPrefixOf (trim l) then
        parseEnvLoop ls inEnv (envLineApply env (trim l))
      else parseEnvLoop ls inEnv env) := rfl

/-- One step of the environment accumulation of `parse`. -/
theorem parseAccumLoop_cons (l : Str) (ls : List Str) (inEnv : Bool) (env : AssocMap) :
    parseAccumLoop (l :: ls) inEnv env =
      (if (trim l).isEmpty || commentOpenTok.isPrefixOf (trim l)
          || commentCloseTok.isPrefixOf (trim l) || lineCommentTok.isPrefixOf (trim l) then
        parseAccumLoop ls inEnv env
      else if trim l = envMarker then parseAccumLoop ls true env
      else if trim l = beginMarker then env
      else if trim l = endMarker then parseAccumLoop ls inEnv env
      else parseAccumLoop ls inEnv (accumEnvLine inEnv env (trim l))) := rfl

/-! Running either environment scan over a block of lines that contains no
BODY-begin marker line: the loop reaches the remaining lines in some state,
the env flag never goes back off, and it is on once the block contains an
ENV marker line. -/

theorem parseEnvLoop_append (ls rest : List Str) (inEnv : Bool) (env : AssocMap)
    (hnb : ∀ l ∈ ls, trim l ≠ beginMarker) :
    ∃ inEnv2 env2, parseEnvLoop (ls ++ rest) inEnv env = parseEnvLoop rest inEnv2 env2
      ∧ (inEnv = true → inEnv2 = true)
      ∧ ((∃ l ∈ ls, trim l = envMarker) → inEnv2 = true) := by
  induction ls generalizing inEnv env with
  | nil =>
    exact ⟨inEnv, env, rfl, fun h => h, fun ⟨l, hl, _⟩ => absurd hl (List.not_mem_nil l)⟩
  | cons l ls ih =>
    have hnbt : ∀ l' ∈ ls, trim l' ≠ beginMarker :=
      fun l' hl' => hnb l' (List.mem_cons_of_mem _ hl')
    by_cases hskip : ((trim l).isEmpty || commentOpenTok.isPrefixOf (trim l)
        || commentCloseTok.isPrefixOf (trim l) || lineCommentTok.isPrefixOf (trim l)) = true
    · have hstep : parseEnvLoop ((l :: ls) ++ rest) inEnv env
          = parseEnvLoop (ls ++ rest) inEnv env := by
        rw [List.cons_append, parseEnvLoop_cons, if_pos hskip]
      obtain ⟨i2, e2, heq, hmono, henvc⟩ := ih inEnv env hnbt
      refine ⟨i2, e2, hstep.trans heq, hmono, ?_⟩
      rintro ⟨l', hl', hval⟩
      rcases List.mem_cons.mp hl' with h1 | h2
      · exfalso
        have hv2 : trim l = envMarker := h1 ▸ hval
        rw [hv2] at hskip
        exact absurd hskip (by decide)
      · exact henvc ⟨l', h2, hval⟩
    · by_cases hEnvM : trim l = envMarker
      · have hstep : parseEnvLoop ((l :: ls) ++ rest) inEnv env
            = parseEnvLoop (ls ++ rest) true env := by
          rw [List.cons_append, parseEnvLoop_cons, if_neg hskip, if_pos hEnvM]
        obtain ⟨i2, e2, heq, hmono, _⟩ := ih true env hnbt
        exact ⟨i2, e2, hstep.trans heq, fun _ => hmono rfl, fun _ => hmono rfl⟩
      · have hBeg : ¬ trim l = beginMarker := hnb l (List.mem_cons_self _ _)
        by_cases hc : (inEnv && envDeclTok.isPrefixOf (trim l)) = true
        · have hstep : parseEnvLoop ((l :: ls) ++ rest) inEnv env
              = parseEnvLoop (ls ++ rest) inEnv (envLineApply env (trim l)) := by
            rw [List.cons_append, parseEnvLoop_cons, if_neg hskip, if_neg hEnvM, if_neg hBeg,
              if_pos hc]
          obtain ⟨i2, e2, heq, hmono, henvc⟩ := ih inEnv (envLineApply env (trim l)) hnbt
          refine ⟨i2, e2, hstep.trans heq, hmono, ?_⟩
          rintro ⟨l', hl', hval⟩
          rcases List.mem_cons.mp hl' with h1 | h2
          · exact absurd (h1 ▸ hval) hEnvM
          · exact henvc ⟨l', h2, hval⟩
        · have hstep : parseEnvLoop ((l :: ls) ++ rest) inEnv env
              = parseEnvLoop (ls ++ rest) inEnv env := by
            rw [List.cons_append, parseEnvLoop_cons, if_neg hskip, if_neg hEnvM, if_neg hBeg,
              if_neg hc]
          obtain ⟨i2, e2, heq, hmono, henvc⟩ := ih inEnv env hnbt
          refine ⟨i2, e2, hstep.trans heq, hmono, ?_⟩
          rintro ⟨l', hl', hval⟩
          rcases List.mem_cons.mp hl' with h1 | h2
          · exact absurd (h1 ▸ hval) hEnvM
          · exact henvc ⟨l', h2, hval⟩

theorem parseAccumLoop_append (ls rest : List Str) (inEnv : Bool) (env : AssocMap)
    (hnb : ∀ l ∈ ls, trim l ≠ beginMarker) :
    ∃ inEnv2 env2, parseAccumLoop (ls ++ rest) inEnv env = parseAccumLoop rest inEnv2 env2
      ∧ (inEnv = true → inEnv2 = true)
      ∧ ((∃ l ∈ ls, trim l = envMarker) → inEnv2 = true) := by
  induction ls generalizing inEnv env with
  | nil =>
    exact ⟨inEnv, env, rfl, fun h => h, fun ⟨l, hl, _⟩ => absurd hl (List.not_mem_nil l)⟩
  | cons l ls ih =>
    have hnbt : ∀ l' ∈ ls, trim l' ≠ beginMarker :=
      fun l' hl' => hnb l' (List.mem_cons_of_mem _ hl')
    by_cases hskip : ((trim l).isEmpty || commentOpenTok.isPrefixOf (trim l)
        || commentCloseTok.isPrefixOf (trim l) || lineCommentTok.isPrefixOf (trim l)) = true
    · have hstep : parseAccumLoop ((l :: ls) ++ rest) inEnv env
          = parseAccumLoop (ls ++ rest) inEnv env := by
        rw [List.cons_append, parseAccumLoop_cons, if_pos hskip]
      obtain ⟨i2, e2, heq, hmono, henvc⟩ := ih inEnv env hnbt
      refine ⟨i2, e2, hstep.trans heq, hmono, ?_⟩
      rintro ⟨l', hl', hval⟩
      rcases List.mem_cons.mp hl' with h1 | h2
      · exfalso
        have hv2 : trim l = envMarker := h1 ▸ hval
        rw [hv2] at hskip
        exact absurd hskip (by decide)
      · exact henvc ⟨l', h2, hval⟩
    · by_cases hEnvM : trim l = envMarker
      · have hstep : parseAccumLoop ((l :: ls) ++ rest) inEnv env
            = parseAccumLoop (ls ++ rest) true env := by
          rw [List.cons_append, parseAccumLoop_cons, if_neg hskip, if_pos hEnvM]
        obtain ⟨i2, e2, heq, hmono, _⟩ := ih true env hnbt
        exact ⟨i2, e2, hstep.trans heq, fun _ => hmono rfl, fun _ => hmono rfl⟩
      · have hBeg : ¬ trim l = beginMarker := hnb l (List.mem_cons_self _ _)
        by_cases hEnd : trim l = endMarker
        · have hstep : parseAccumLoop ((l :: ls) ++ rest) inEnv env
              = parseAccumLoop (ls ++ rest) inEnv env := by
            rw [List.cons_append, parseAccumLoop_cons, if_neg hskip, if_neg hEnvM, if_neg hBeg,
              if_pos hEnd]
          obtain ⟨i2, e2, heq, hmono, henvc⟩ := ih inEnv env hnbt
          refine ⟨i2, e2, hstep.trans heq, hmono, ?_⟩
          rintro ⟨l', hl', hval⟩
          rcases List.mem_cons.mp hl' with h1 | h2
          · exact absurd (h1 ▸ hval) hEnvM
          · exact henvc ⟨l', h2, hval⟩
        · have hstep : parseAccumLoop ((l :: ls) ++ rest) inEnv env
              = parseAccumLoop (ls ++ rest) inEnv (accumEnvLine inEnv env (trim l)) := by
            rw [List.cons_append, parseAccumLoop_cons, if_neg hskip, if_neg hEnvM, if_neg hBeg,
              if_neg hEnd]
          obtain ⟨i2, e2, heq, hmono, henvc⟩ := ih inEnv (accumEnvLine inEnv env (trim l)) hnbt
          refine ⟨i2, e2, hstep.trans heq, hmono, ?_⟩
          rintro ⟨l', hl', hval⟩
          rcases List.mem_cons.mp hl' with h1 | h2
          · exact absurd (h1 ▸ hval) hEnvM
          · exact henvc ⟨l', h2, hval⟩

/-- The doctype gate of `parse` on a non-empty line list. -/
theorem parse_cons {text : Str} {l0 : Str} {ls : List Str} (hls : rustLines text = l0 :: ls) :
    parse text = if strContainsSub doctypeTok l0 = true then
      parseLines (l0 :: ls) false false [] [] else .error .missingDoctype := by
  unfold parse
  rw [hls]

/-- The doctype gate of `parse_env` on a non-empty line list. -/
theorem parse_env_cons {text : Str} {l0 : Str} {ls : List Str}
    (hls : rustLines text = l0 :: ls) :
    parse_env text = if strContainsSub doctypeTok l0 = true then
      .ok (parseEnvLoop (l0 :: ls) false []) else .error .missingDoctype := by
  unfold parse_env
  rw [hls]

/-- The doctype gate of `parseEnvAt` on a non-empty line list. -/
theorem parseEnvAt_cons {text : Str} {l0 : Str} {ls : List Str}
    (hls : rustLines text = l0 :: ls) :
    parseEnvAt text = if strContainsSub doctypeTok l0 = true then
      .ok (parseAccumLoop (l0 :: ls) false []) else .error .missingDoctype := by
  unfold parseEnvAt
  rw [hls]

/-- `parse_element` on a declaration with its leading `>` made explicit:
the definition specialised to `'>' :: rest`, with the prefix strip
evaluated. -/
theorem parse_element_gt (rest : Str) (env : AssocMap) :
    parse_element ('>' :: rest) env =
      (if containsChar '>' rest = false then .error .missingSeparator
       else if attrScan rest = [] then .error .noAttributesFound
       else
         match findCharIdx '>' rest with
         | none => .error .missingSeparator
         | some contentStart =>
           match findCharIdx '>' (contentPartOf rest contentStart) with
           | none => .error .malformedContent
           | some i =>
             if (contentPartOf rest contentStart).take i = []
                 ∨ (contentPartOf rest contentStart).drop (i + 1) = [] then
               .error .malformedContent
             else
               .ok (mkRecord (attrFold (attrScan rest))
                 ((contentPartOf rest contentStart).take i)
                 (resolveContent env ((contentPartOf rest contentStart).drop (i + 1))))) := rfl

/-! The claims. -/

/-- C1: on the six-line example document (`DOCTYPE=JTL`, `>>>ENV;`,
`>>>foo=bar;`, `>>>BEGIN;`, the element declaration, `>>>END;`) the
Document Parser succeeds with exactly one Element Record, equal as a map to
`"key" ↦ "value"`, `"KEY" ↦ "element_id"`, `"Content" ↦ "bar"`,
`"Contents" ↦ "bar"`, and the Environment Extractor on the same document
returns exactly the mapping `"foo" ↦ "bar"`. -/
theorem claim1_sample_document :
    parse sampleJtl = .ok [[("key".data, "value".data), (keyTok, "element_id".data),
      (contentTok, "bar".data), (contentsTok, "bar".data)]]
    ∧ parse_env sampleJtl = .ok [("foo".data, "bar".data)] := ⟨rfl, rfl⟩

/-- C2 counterexample: on `crossSplitDoc`, whose third line is
`x; >>>foo=bar;`, the Environment Extractor returns the empty mapping while
the Document Parser has accumulated `foo ↦ bar` at the BODY-begin marker —
observable in its output, where `$env:foo` was substituted by `bar`.  The
extractor therefore does not recognize the same environment declarations as
the parser, refuting the claim. -/
theorem claim2_counterexample :
    parse_env crossSplitDoc = .ok []
    ∧ parseEnvAt crossSplitDoc = .ok [("foo".data, "bar".data)]
    ∧ parse crossSplitDoc = .ok [[("k".data, "v".data), (keyTok, "i".data),
        (contentTok, "bar".data), (contentsTok, "bar".data)]] := ⟨rfl, rfl, rfl⟩

/-- C2 amended: the Environment Extractor agrees with the environment map
the Document Parser has accumulated at the BODY-begin marker (or at end of
input) for every document in which each line after the first one, up to the
BODY-begin marker, is blank, a comment, or starts (after trimming) with
`>>>`.  (The counterexample shows the agreement fails when an environment
declaration hides behind a `;` on a line that does not start with `>>>`.) -/
theorem claim2_env_extractor_amended (text : Str)
    (h : ∀ l ∈ upToBegin ((rustLines text).drop 1), lineOkForEnv l = true) :
    parse_env text = parseEnvAt text := by
  cases hls : rustLines text with
  | nil =>
    unfold parse_env parseEnvAt
    rw [hls]
  | cons l0 ls =>
    rw [parse_env_cons hls, parseEnvAt_cons hls]
    rw [hls] at h
    simp only [List.drop_succ_cons, List.drop_zero] at h
    by_cases hd : strContainsSub doctypeTok l0 = true
    · rw [if_pos hd, if_pos hd]
      congr 1
      unfold parseEnvLoop parseAccumLoop
      split
      · exact envLoops_eq ls false [] h
      · split
        · exact envLoops_eq ls true [] h
        · split
          · rfl
          · split
            next hc => exact absurd hc (by simp)
            next =>
              split
              · exact envLoops_eq ls false [] h
              · rw [accumEnvLine_false]
                exact envLoops_eq ls false [] h
    · rw [if_neg hd, if_neg hd]

/-- C2 witness: the amended equivalence evaluated on the sample document. -/
theorem claim2_witness : parse_env sampleJtl = parseEnvAt sampleJtl :=
  claim2_env_extractor_amended sampleJtl (by decide)

/-- C3 counterexample: in `reopenDoc` the only element declaration lies on
a line after the `>>>END;` marker, yet the Document Parser returns one
record for it, because the second `>>>BEGIN;` line re-enters Body mode.
This refutes the claim that no declaration after `>>>END;` ever contributes
a record regardless of what markers follow. -/
theorem claim3_counterexample :
    parse reopenDoc = .ok [[("k".data, "v".data), (keyTok, "i".data),
      (contentTok, "c".data), (contentsTok, "c".data)]] := rfl

/-- C3 amended: once the Document Parser has left Body mode (as it does on
`>>>END;`), then as long as no later line is the BODY-begin marker, the
remaining lines contribute no Element Record and cannot fail: the loop
returns exactly the records accumulated so far.  (The counterexample shows
a later `>>>BEGIN;` does re-enter Body mode.) -/
theorem claim3_closed_amended (ls : List Str) (inEnv : Bool) (env : AssocMap)
    (acc : List AssocMap) (h : ∀ l ∈ ls, trim l ≠ beginMarker) :
    parseLines ls inEnv false env acc = .ok acc := by
  induction ls generalizing inEnv env with
  | nil => rfl
  | cons l ls ih =>
    have htail : ∀ l' ∈ ls, trim l' ≠ beginMarker :=
      fun l' hl' => h l' (List.mem_cons_of_mem _ hl')
    unfold parseLines
    split
    · exact ih _ _ htail
    · split
      · exact ih _ _ htail
      · split
        next hc => exact absurd hc (h l (List.mem_cons_self _ _))
        next =>
          split
          · exact ih _ _ htail
          · obtain ⟨env2, hdecl⟩ := parseDecls_not_body inEnv env acc (splitOnChar ';' (trim l))
            rw [hdecl]
            exact ih _ _ htail

/-- C3 witness: with the body flag off, an environment line, an
element-shaped line and the BODY-end marker all leave the accumulated
records untouched. -/
theorem claim3_witness :
    parseLines [">>>foo=bar;".data, ">x y=\"z\">i>c;".data, ">>>END;".data] false false []
      [[("a".data, "b".data)]] = .ok [[("a".data, "b".data)]] :=
  claim3_closed_amended _ _ _ _ (by decide)

/-- C4 counterexample: for the declaration `>abc k="v">id>$env:$env:x` under
the environment `x ↦ A`, the claim predicts that the name looked up is
`$env:x` (one strip), which is unbound, so the content should stay the
literal `$env:$env:x`; but the code strips the token repeatedly, looks up
`x`, and substitutes `A`. -/
theorem claim4_counterexample :
    parse_element (">abc k=\"v\">id>$env:$env:x".data) [("x".data, "A".data)]
      = .ok [("k".data, "v".data), (keyTok, "id".data), (contentTok, "A".data),
        (contentsTok, "A".data)]
    ∧ AssocMap.find? [("x".data, "A".data)] ("$env:x".data) = none := ⟨rfl, rfl⟩

/-- C4 amended: for every content string beginning with `$env:`, the
variable name looked up is the content with all leading occurrences of the
`$env:` token stripped (so the stripped name never starts with the token
again); if the name is bound the content becomes the bound value, and if it
is not bound the content remains the literal reference string — no error in
either case. -/
theorem claim4_env_resolution_amended (env : AssocMap) (content : Str)
    (h : envRefTok.isPrefixOf content = true) :
    envRefTok.isPrefixOf (stripEnvRepeated content) = false
    ∧ (∀ v, AssocMap.find? env (stripEnvRepeated content) = some v →
        resolveContent env content = v)
    ∧ (AssocMap.find? env (stripEnvRepeated content) = none →
        resolveContent env content = content) := by
  refine ⟨stripEnvF_no_tok _ _ le_rfl, ?_, ?_⟩
  · intro v hv
    unfold resolveContent
    rw [if_pos h, hv]
  · intro hv
    unfold resolveContent
    rw [if_pos h, hv]

/-- C4 witness: the unbound reference `$env:missing` in the empty
environment resolves to itself. -/
theorem claim4_witness :
    resolveContent [] ("$env:missing".data) = "$env:missing".data :=
  (claim4_env_resolution_amended [] ("$env:missing".data) (by decide)).2.2 rfl

/-- C5: for a declaration `'>' :: rest` whose remainder contains a further
`>`, the element parser fails with `noAttributesFound` exactly when the
attribute scan over the ENTIRE remainder (not just the part before the
first interior `>`) finds no `name="value"` pair, and on success every
scanned pair's name is a key of the resulting record. -/
theorem claim5_attr_whole_tail (rest : Str) (env : AssocMap)
    (hc : containsChar '>' rest = true) :
    ((parse_element ('>' :: rest) env = .error .noAttributesFound) ↔ attrScan rest = [])
    ∧ (∀ m, parse_element ('>' :: rest) env = .ok m →
        ∀ nv ∈ attrScan rest, (AssocMap.find? m nv.1).isSome = true) := by
  have hcf : ¬ (containsChar '>' rest = false) := by simp [hc]
  constructor
  · constructor
    · intro h
      rw [parse_element_gt, if_neg hcf] at h
      cases hA : attrScan rest with
      | nil => rfl
      | cons a as =>
        exfalso
        rw [hA, if_neg (by simp)] at h
        obtain ⟨j, hj⟩ := containsChar_findIdx hc
        rw [hj] at h
        iterate 4 (all_goals try split at h)
        all_goals simp at h
    · intro hA
      rw [parse_element_gt, if_neg hcf, if_pos hA]
  · intro m hm nv hnv
    rw [parse_element_gt, if_neg hcf] at hm
    have hA : ¬ (attrScan rest = []) := by
      intro h0
      rw [h0] at hnv
      cases hnv
    rw [if_neg hA] at hm
    obtain ⟨j, hj⟩ := containsChar_findIdx hc
    rw [hj] at hm
    iterate 4 (all_goals try split at hm)
    all_goals simp at hm
    subst hm
    unfold mkRecord attrFold
    refine find_insert_isSome _ _ _ _ (find_insert_isSome _ _ _ _
      (find_insert_isSome _ _ _ _ ?_))
    exact find_foldl_insert_mem _ _ _ nv.2 (by simpa using hnv)

/-- C5 witness: for the declaration `>abc>id>k="v"`, whose only attribute
pair lies after the first interior `>`, the scan still finds it, so the
parser does not fail with `noAttributesFound`. -/
theorem claim5_witness :
    ((parse_element ('>' :: "abc>id>k=\"v\"".data) [] = .error .noAttributesFound)
      ↔ attrScan ("abc>id>k=\"v\"".data) = []) :=
  (claim5_attr_whole_tail ("abc>id>k=\"v\"".data) [] rfl).1

/-- C6: every Element Record produced by a successful element parse binds
the reserved keys `KEY`, `Content` and `Contents`, with `Content` and
`Contents` holding the identical content string; and because the reserved
insertions happen after the attribute insertions, looking the reserved keys
up in `mkRecord m0 id c` returns `id` and `c` for EVERY attribute map
`m0` — even one that already bound those names (last write wins). -/
theorem claim6_reserved_keys :
    (∀ d env m, parse_element d env = .ok m →
      ∃ id c, AssocMap.find? m keyTok = some id
        ∧ AssocMap.find? m contentTok = some c
        ∧ AssocMap.find? m contentsTok = some c)
    ∧ (∀ m0 id c, AssocMap.find? (mkRecord m0 id c) keyTok = some id
        ∧ AssocMap.find? (mkRecord m0 id c) contentTok = some c
        ∧ AssocMap.find? (mkRecord m0 id c) contentsTok = some c) := by
  constructor
  · intro d env m hm
    unfold parse_element at hm
    iterate 8 (all_goals try split at hm)
    all_goals simp at hm
    subst hm
    exact ⟨_, _, mkRecord_find_key _ _ _, mkRecord_find_content _ _ _,
      mkRecord_find_contents _ _ _⟩
  · intro m0 id c
    exact ⟨mkRecord_find_key _ _ _, mkRecord_find_content _ _ _, mkRecord_find_contents _ _ _⟩

/-- C6 witness: the reserved-key lookups on the record of the sample
element declaration. -/
theorem claim6_witness :
    ∃ id c, AssocMap.find? [("key".data, "value".data), (keyTok, "element_id".data),
        (contentTok, "bar".data), (contentsTok, "bar".data)] keyTok = some id
      ∧ AssocMap.find? [("key".data, "value".data), (keyTok, "element_id".data),
        (contentTok, "bar".data), (contentsTok, "bar".data)] contentTok = some c
      ∧ AssocMap.find? [("key".data, "value".data), (keyTok, "element_id".data),
        (contentTok, "bar".data), (contentsTok, "bar".data)] contentsTok = some c :=
  claim6_reserved_keys.1 (">element_id key=\"value\">element_id>$env:foo".data)
    [("foo".data, "bar".data)] _ rfl

/-- C7: a document whose line list is empty, or whose first line does not
contain the substring `DOCTYPE=JTL`, makes both the Document Parser and the
Environment Extractor fail with `missingDoctype` (and, the result being an
error, no partial output exists); conversely, when the first line does
contain the substring, neither operation ever returns `missingDoctype`. -/
theorem claim7_doctype :
    (∀ text, rustLines text = [] →
      parse text = .error .missingDoctype ∧ parse_env text = .error .missingDoctype)
    ∧ (∀ text l0, (rustLines text).head? = some l0 → strContainsSub doctypeTok l0 = false →
      parse text = .error .missingDoctype ∧ parse_env text = .error .missingDoctype)
    ∧ (∀ text l0, (rustLines text).head? = some l0 → strContainsSub doctypeTok l0 = true →
      parse text ≠ .error .missingDoctype ∧ parse_env text ≠ .error .missingDoctype) := by
  refine ⟨fun text h => ?_, fun text l0 h hd => ?_, fun text l0 h hd => ?_⟩
  · unfold parse parse_env
    rw [h]
    exact ⟨rfl, rfl⟩
  · cases hls : rustLines text with
    | nil => rw [hls] at h; cases h
    | cons a ls =>
      rw [hls] at h
      injection h with h2
      subst h2
      rw [parse_cons hls, parse_env_cons hls, if_neg (by simp [hd]), if_neg (by simp [hd])]
      exact ⟨rfl, rfl⟩
  · cases hls : rustLines text with
    | nil => rw [hls] at h; cases h
    | cons a ls =>
      rw [hls] at h
      injection h with h2
      subst h2
      rw [parse_cons hls, parse_env_cons hls, if_pos hd, if_pos hd]
      exact ⟨parseLines_ne_doctype _ _ _ _ _, by simp⟩

/-- C7 witness: a two-line document without the doctype marker fails both
operations with `missingDoctype`. -/
theorem claim7_witness :
    parse ("hello\nworld".data) = .error .missingDoctype
    ∧ parse_env ("hello\nworld".data) = .error .missingDoctype :=
  claim7_doctype.2.1 ("hello\nworld".data) ("hello".data) rfl rfl

/-- C8 counterexample: the dispatched body declaration `>éé` has trimmed
length three characters (< 5), but its UTF-8 length is five bytes, so the
source's `decl.len() < 5` check does not fire: the parse fails with
`missingSeparator`, not with `elementTooShort` as the claim predicts for
every declaration shorter than five characters. -/
theorem claim8_counterexample :
    (trim (">éé".data)).length = 3
    ∧ parse nonAsciiShortDoc = .error .missingSeparator
    ∧ parse nonAsciiShortDoc ≠ .error .elementTooShort := by
  refine ⟨rfl, rfl, ?_⟩
  intro hcon
  rw [show parse nonAsciiShortDoc = .error .missingSeparator from rfl] at hcon
  simp at hcon

/-- C8 amended: for every declaration dispatched to element parsing (body
flag on, starting with `>`, not a line comment, not taken by the
environment branch), a trimmed length below five UTF-8 BYTES fails the
parse with `elementTooShort`; in particular the body declaration `>a;`
makes the Document Parser fail with `elementTooShort`.  (The counterexample
shows the bound is in bytes, not characters.) -/
theorem claim8_too_short_amended :
    (∀ (inEnv : Bool) (env : AssocMap) (d : Str),
      gtTok.isPrefixOf (trim d) = true →
      lineCommentTok.isPrefixOf (trim d) = false →
      ¬(inEnv = true ∧ envDeclTok.isPrefixOf (trim d) = true) →
      byteLen (trim d) < 5 →
      stepDecl inEnv true env d = .error .elementTooShort)
    ∧ parse tooShortDoc = .error .elementTooShort := by
  constructor
  · intro inEnv env d hgt hnc hne hlen
    have hemp : (trim d).isEmpty = false := by
      obtain ⟨t, ht⟩ := isPrefixOf_exists hgt
      rw [ht]
      rfl
    unfold stepDecl
    rw [if_neg (by rw [hemp, hnc]; simp)]
    rw [if_neg (fun hcc => hne (Bool.and_eq_true _ _ |>.mp hcc))]
    rw [if_pos (by rw [hgt]; rfl)]
    rw [if_pos hlen]
  · rfl

/-- C8 witness: the amended bound applied to the two-byte declaration
`>ab` with the body flag on. -/
theorem claim8_witness :
    stepDecl false true [] (">ab".data) = .error .elementTooShort :=
  claim8_too_short_amended.1 false [] (">ab".data) (by decide) (by decide)
    (by simp) (by decide)

/-- C9 counterexample: `overrideDoc` declares `foo=bar`, then `foo=baz`,
then `foo=qux` in its ENV section.  It therefore contains `>>>foo=bar;`
followed later by `>>>foo=baz;`, yet the extracted value of `foo` is
`qux`, not `baz`: the claim as stated ignores that an even later
declaration overrides again. -/
theorem claim9_counterexample :
    parse_env overrideDoc = .ok [("foo".data, "qux".data)]
    ∧ ("qux".data : Str) ≠ "baz".data := ⟨rfl, by decide⟩

/-- C9 amended: environment bindings are last-write-wins in scan order: in
EVERY document that passes the doctype gate and whose lines are
`pre ++ [>>>foo=bar;] ++ mid ++ [>>>foo=baz;] ++ post` — with an `>>>ENV;`
marker line somewhere in `pre`, no BODY-begin marker line before or between
the two bindings (so both lie in the ENV section, with arbitrary lines
around and between them), and no line after the `foo=baz` binding that
binds `foo` again — the final bound value of `foo` is `baz`, both in the
Environment Extractor's output and in the environment the Document Parser
accumulates for substitution at the BODY-begin marker. -/
theorem claim9_last_write_amended (text : Str) (pre mid post : List Str)
    (hls : rustLines text
      = pre ++ ([">>>foo=bar;".data] ++ (mid ++ ([">>>foo=baz;".data] ++ post))))
    (hdoc : ∃ l0 pre2, pre = l0 :: pre2 ∧ strContainsSub doctypeTok l0 = true)
    (henv : ∃ l ∈ pre, trim l = envMarker)
    (hnb : ∀ l ∈ pre ++ ([">>>foo=bar;".data] ++ mid), trim l ≠ beginMarker)
    (hpost : ∀ l ∈ post, lineBindsKey l ("foo".data) = false) :
    (∃ m, parse_env text = .ok m ∧ AssocMap.find? m ("foo".data) = some ("baz".data))
    ∧ (∃ e, parseEnvAt text = .ok e ∧ AssocMap.find? e ("foo".data) = some ("baz".data)) := by
  obtain ⟨l0, pre2, hpre, hd0⟩ := hdoc
  subst hpre
  have hcons : rustLines text
      = l0 :: (pre2 ++ ([">>>foo=bar;".data] ++ (mid ++ ([">>>foo=baz;".data] ++ post)))) := hls
  have hlist : (l0 :: (pre2 ++ ([">>>foo=bar;".data]
        ++ (mid ++ ([">>>foo=baz;".data] ++ post)))) : List Str)
      = ((l0 :: pre2) ++ ([">>>foo=bar;".data] ++ mid)) ++ (">>>foo=baz;".data :: post) := by
    simp [List.append_assoc]
  have henv2 : ∃ l ∈ (l0 :: pre2) ++ ([">>>foo=bar;".data] ++ mid), trim l = envMarker := by
    obtain ⟨l, hl, hv⟩ := henv
    exact ⟨l, List.mem_append_left _ hl, hv⟩
  constructor
  · rw [parse_env_cons hcons, if_pos hd0, hlist]
    obtain ⟨i2, e2, heq, _, henvc⟩ := parseEnvLoop_append
      ((l0 :: pre2) ++ ([">>>foo=bar;".data] ++ mid)) (">>>foo=baz;".data :: post) false [] hnb
    have hi2 : i2 = true := henvc henv2
    rw [heq, hi2]
    have hstep : parseEnvLoop (">>>foo=baz;".data :: post) true e2
        = parseEnvLoop post true (AssocMap.insert e2 ("foo".data) ("baz".data)) := rfl
    refine ⟨_, rfl, ?_⟩
    rw [hstep, parseEnvLoop_preserves post true _ _ hpost, find_insert_self]
  · rw [parseEnvAt_cons hcons, if_pos hd0, hlist]
    obtain ⟨i2, e2, heq, _, henvc⟩ := parseAccumLoop_append
      ((l0 :: pre2) ++ ([">>>foo=bar;".data] ++ mid)) (">>>foo=baz;".data :: post) false [] hnb
    have hi2 : i2 = true := henvc henv2
    rw [heq, hi2]
    have hstep : parseAccumLoop (">>>foo=baz;".data :: post) true e2
        = parseAccumLoop post true (AssocMap.insert e2 ("foo".data) ("baz".data)) := rfl
    refine ⟨_, rfl, ?_⟩
    rw [hstep, parseAccumLoop_preserves post true _ _ hpost, find_insert_self]

/-- C9 witness: the amended last-write-wins property on a document where
`foo=baz` is the last binding of `foo`, followed only by the section
markers. -/
theorem claim9_witness :
    (∃ m, parse_env overrideTailDoc = .ok m
      ∧ AssocMap.find? m ("foo".data) = some ("baz".data))
    ∧ (∃ e, parseEnvAt overrideTailDoc = .ok e
      ∧ AssocMap.find? e ("foo".data) = some ("baz".data)) :=
  claim9_last_write_amended overrideTailDoc ["DOCTYPE=JTL".data, ">>>ENV;".data] []
    [">>>BEGIN;".data, ">>>END;".data] (by decide)
    ⟨"DOCTYPE=JTL".data, [">>>ENV;".data], rfl, by decide⟩
    ⟨">>>ENV;".data, by decide, rfl⟩ (by decide) (by decide)

/-- C10: an environment-style declaration `>>>…` met while in Body mode
(after `>>>BEGIN;`, so the env flag is off) is dispatched to the element
parser — it starts with `>` — and, when it contains no quoted
`name="value"` pair and is at least five bytes long, the whole parse fails
with `noAttributesFound`; in particular `parse` fails so on
`envStyleBodyDoc`, whose BODY section holds `>>>foo=bar;`. -/
theorem claim10_env_decl_in_body :
    (∀ (env : AssocMap) (tail : Str),
      trim ('>' :: '>' :: '>' :: tail) = '>' :: '>' :: '>' :: tail →
      5 ≤ byteLen ('>' :: '>' :: '>' :: tail) →
      attrScan ('>' :: '>' :: tail) = [] →
      stepDecl false true env ('>' :: '>' :: '>' :: tail) = .error .noAttributesFound)
    ∧ parse envStyleBodyDoc = .error .noAttributesFound := by
  constructor
  · intro env tail htrim hlen hattr
    have hpe : parse_element ('>' :: '>' :: '>' :: tail) env = .error .noAttributesFound := by
      rw [parse_element_gt]
      rw [if_neg (by simp [show containsChar '>' ('>' :: '>' :: tail) = true from rfl])]
      rw [if_pos hattr]
    unfold stepDecl
    rw [htrim]
    rw [if_neg (by simp [show lineCommentTok.isPrefixOf ('>' :: '>' :: '>' :: tail) = false
      from rfl])]
    rw [if_neg (by simp)]
    rw [if_pos (by rfl)]
    rw [if_neg (by omega)]
    rw [hpe]
  · rfl

/-- C10 witness: the declaration `>>>foo=bar` in Body mode. -/
theorem claim10_witness :
    stepDecl false true [] (">>>foo=bar".data) = .error .noAttributesFound :=
  claim10_env_decl_in_body.1 [] ("foo=bar".data) rfl (by decide) rfl

end JTL
